import Mathlib

/-!
# Verification of the CollapsibleGrid visibility state machine

Shallow embedding of `src/CollapsibleGrid.tsx`.  The file holds two
variants of the component: the first (strict swap policy, halves layout)
and the second (permissive policy, equal-split layout).  Both share the
initialization policy, the collapsed-width formula and the row
resynchronization effect.  Sets of string identifiers are modelled as
`Finset String`; ordered header and row lists as Lean lists.
-/

namespace CollapsibleGrid

/-- Header descriptor: `{ id, title }` (render add-ons are irrelevant to state). -/
structure HeaderCell where
  id : String
  title : String
deriving DecidableEq, Repr

/-- Row descriptor; the `blocks` mapping does not influence any state transition,
only the row id is consulted by the state machine. -/
structure Row where
  id : String
deriving DecidableEq, Repr

/-- `const MIN_EXPANDED = 2`. -/
def MIN_EXPANDED : Nat := 2

/-- `const getCollapsedWidthCh = (title) => Math.max(title.length + 4, 8)`. -/
def getCollapsedWidthCh (title : String) : Nat :=
  max (title.length + 4) 8

/-- `initialExpanded`: all ids when `headers.length <= MIN_EXPANDED`,
otherwise `headers.slice(0, -1)` (all but the last). -/
def initialExpanded (headers : List HeaderCell) : List String :=
  if headers.length ≤ MIN_EXPANDED then
    headers.map HeaderCell.id
  else
    headers.dropLast.map HeaderCell.id

/-- `new Set(initialExpanded)`: the initial expanded-column set. -/
def initialState (headers : List HeaderCell) : Finset String :=
  (initialExpanded headers).toFinset

/-- The set of all header ids of a header list. -/
def headerIds (headers : List HeaderCell) : Finset String :=
  (headers.map HeaderCell.id).toFinset

/-- The permissive `toggle` (second variant, lines 342-356):
no-op when the clicked id is expanded and the count is already at the
floor, otherwise delete an expanded id / add a collapsed id. -/
def toggle (prev : Finset String) (id : String) : Finset String :=
  let isExpanded := id ∈ prev
  if isExpanded ∧ prev.card ≤ MIN_EXPANDED then
    prev
  else if isExpanded then
    prev.erase id
  else
    insert id prev

/-- `collapsedIds`: ids of headers missing from the expanded set, in header order. -/
def collapsedIds (headers : List HeaderCell) (prev : Finset String) : List String :=
  (headers.filter (fun h => h.id ∉ prev)).map HeaderCell.id

/-- The strict `toggle` (first variant, lines 52-82).  At the floor with
exactly one collapsed header a swap happens (`next.add(collapsedId[0])`
then `next.delete(id)`); otherwise an expanded id is deleted when above
the floor.  The source's collapsed branch has two identical arms, both
of which just add the clicked id. -/
def toggleStrict (headers : List HeaderCell) (prev : Finset String) (id : String) :
    Finset String :=
  let isExpanded := id ∈ prev
  if isExpanded then
    if prev.card = MIN_EXPANDED then
      match collapsedIds headers prev with
      | [collapsedId] => (insert collapsedId prev).erase id
      | _ => prev
    else
      prev.erase id
  else
    insert id prev

/-- A finite sequence of permissive toggles, applied left to right. -/
def runToggles (prev : Finset String) (ops : List String) : Finset String :=
  ops.foldl toggle prev

/-- A finite sequence of strict toggles, applied left to right. -/
def runStrictToggles (headers : List HeaderCell) (prev : Finset String)
    (ops : List String) : Finset String :=
  ops.foldl (toggleStrict headers) prev

/-- The row resynchronization effect (both variants, lines 37-50 / 327-340):
a first pass keeps ids of incoming rows already present in the previous
open-row set, a second pass adds the id of every incoming row. -/
def resyncRows (prev : Finset String) (rows : List Row) : Finset String :=
  let kept := rows.foldl (fun next row =>
    if row.id ∈ prev then insert row.id next else next) ∅
  rows.foldl (fun next row => insert row.id next) kept

/-- One size token of a grid template string. -/
inductive SizeToken where
  /-- `'{n}fr'` -/
  | fr (n : Nat)
  /-- `'{n}ch'` -/
  | ch (n : Nat)
  /-- `'{n}px'` -/
  | px (n : Nat)
  /-- `'50%'` -/
  | half
  /-- `'calc(50% - {n}ch)'` -/
  | halfMinusCh (n : Nat)
deriving DecidableEq, Repr

/-- The equal-split `headerTemplate` (second variant, lines 358-361):
`'1fr'` for an expanded header, otherwise its collapsed width in `ch`. -/
def headerTemplate (headers : List HeaderCell) (expanded : Finset String) :
    List SizeToken :=
  headers.map (fun header =>
    if header.id ∈ expanded then SizeToken.fr 1
    else SizeToken.ch (getCollapsedWidthCh header.title))

/-- The equal-split `valueTemplate` (second variant, lines 362-365):
`'1fr'` for an expanded header, `'0px'` for a collapsed one. -/
def valueTemplate (headers : List HeaderCell) (expanded : Finset String) :
    List SizeToken :=
  headers.map (fun header =>
    if header.id ∈ expanded then SizeToken.fr 1
    else SizeToken.px 0)

/-! ## Basic facts about the embedded operations -/

theorem mem_collapsedIds {headers : List HeaderCell} {prev : Finset String}
    {c : String} :
    c ∈ collapsedIds headers prev ↔ c ∈ headerIds headers ∧ c ∉ prev := by
  simp only [collapsedIds, headerIds, List.mem_map, List.mem_filter,
    List.mem_toFinset, decide_eq_true_eq]
  constructor
  · rintro ⟨h, ⟨hmem, hnot⟩, rfl⟩
    exact ⟨⟨h, hmem, rfl⟩, hnot⟩
  · rintro ⟨⟨h, hmem, rfl⟩, hnot⟩
    exact ⟨h, ⟨hmem, hnot⟩, rfl⟩

theorem toggle_card_ge {S : Finset String} (id : String) (h : 2 ≤ S.card) :
    2 ≤ (toggle S id).card := by
  simp only [toggle, MIN_EXPANDED]
  split_ifs with h1 h2
  · exact h
  · have h3 : ¬ S.card ≤ 2 := fun hc => h1 ⟨h2, hc⟩
    rw [Finset.card_erase_of_mem h2]
    omega
  · exact h.trans (Finset.card_le_card (Finset.subset_insert id S))

theorem toggle_subset {ids S : Finset String} {id : String}
    (hid : id ∈ ids) (hS : S ⊆ ids) : toggle S id ⊆ ids := by
  simp only [toggle, MIN_EXPANDED]
  split_ifs
  · exact hS
  · exact (Finset.erase_subset _ _).trans hS
  · exact Finset.insert_subset_iff.mpr ⟨hid, hS⟩

theorem toggleStrict_card_ge (headers : List HeaderCell) {S : Finset String}
    (id : String) (h : 2 ≤ S.card) : 2 ≤ (toggleStrict headers S id).card := by
  simp only [toggleStrict, MIN_EXPANDED]
  split_ifs with h1 h2
  · rcases hl : collapsedIds headers S with _ | ⟨c, _ | ⟨d, l⟩⟩
    · exact h
    · show 2 ≤ ((insert c S).erase id).card
      have hc : c ∈ collapsedIds headers S := by
        rw [hl]; exact List.mem_singleton.mpr rfl
      have hcS : c ∉ S := (mem_collapsedIds.mp hc).2
      have hins : id ∈ insert c S := Finset.mem_insert_of_mem h1
      rw [Finset.card_erase_of_mem hins, Finset.card_insert_of_not_mem hcS]
      omega
    · exact h
  · rw [Finset.card_erase_of_mem h1]
    omega
  · exact h.trans (Finset.card_le_card (Finset.subset_insert id S))

theorem toggleStrict_subset (headers : List HeaderCell) {S : Finset String}
    {id : String} (hid : id ∈ headerIds headers) (hS : S ⊆ headerIds headers) :
    toggleStrict headers S id ⊆ headerIds headers := by
  simp only [toggleStrict, MIN_EXPANDED]
  split_ifs with h1 h2
  · rcases hl : collapsedIds headers S with _ | ⟨c, _ | ⟨d, l⟩⟩
    · exact hS
    · show ((insert c S).erase id) ⊆ _
      have hc : c ∈ collapsedIds headers S := by
        rw [hl]; exact List.mem_singleton.mpr rfl
      exact (Finset.erase_subset _ _).trans
        (Finset.insert_subset_iff.mpr ⟨(mem_collapsedIds.mp hc).1, hS⟩)
    · exact hS
  · exact (Finset.erase_subset _ _).trans hS
  · exact Finset.insert_subset_iff.mpr ⟨hid, hS⟩

theorem runToggles_card_ge (ops : List String) {S : Finset String}
    (h : 2 ≤ S.card) : 2 ≤ (runToggles S ops).card := by
  induction ops generalizing S with
  | nil => exact h
  | cons a l ih => exact ih (toggle_card_ge a h)

theorem runToggles_subset {ids : Finset String} (ops : List String)
    {S : Finset String} (hops : ∀ id ∈ ops, id ∈ ids) (hS : S ⊆ ids) :
    runToggles S ops ⊆ ids := by
  induction ops generalizing S with
  | nil => exact hS
  | cons a l ih =>
    exact ih (fun id hid => hops id (List.mem_cons_of_mem a hid))
      (toggle_subset (hops a (List.mem_cons_self a l)) hS)

theorem runStrictToggles_card_ge (headers : List HeaderCell) (ops : List String)
    {S : Finset String} (h : 2 ≤ S.card) :
    2 ≤ (runStrictToggles headers S ops).card := by
  induction ops generalizing S with
  | nil => exact h
  | cons a l ih => exact ih (toggleStrict_card_ge headers a h)

theorem runStrictToggles_subset (headers : List HeaderCell) (ops : List String)
    {S : Finset String} (hops : ∀ id ∈ ops, id ∈ headerIds headers)
    (hS : S ⊆ headerIds headers) :
    runStrictToggles headers S ops ⊆ headerIds headers := by
  induction ops generalizing S with
  | nil => exact hS
  | cons a l ih =>
    exact ih (fun id hid => hops id (List.mem_cons_of_mem a hid))
      (toggleStrict_subset headers (hops a (List.mem_cons_self a l)) hS)

theorem initialState_subset (headers : List HeaderCell) :
    initialState headers ⊆ headerIds headers := by
  intro x hx
  simp only [initialState, initialExpanded, List.mem_toFinset] at hx
  simp only [headerIds, List.mem_toFinset]
  split_ifs at hx with h
  · exact hx
  · rcases List.mem_map.mp hx with ⟨hd, hmem, rfl⟩
    exact List.mem_map.mpr ⟨hd, (List.dropLast_sublist headers).subset hmem, rfl⟩

theorem initialState_card_ge (headers : List HeaderCell)
    (hlen : 2 ≤ headers.length)
    (hnodup : (headers.map HeaderCell.id).Nodup) :
    2 ≤ (initialState headers).card := by
  unfold initialState initialExpanded MIN_EXPANDED
  split_ifs with h
  · rw [List.toFinset_card_of_nodup hnodup, List.length_map]
    exact hlen
  · have hsub : List.Sublist (headers.dropLast.map HeaderCell.id)
        (headers.map HeaderCell.id) :=
      (List.dropLast_sublist headers).map HeaderCell.id
    rw [List.toFinset_card_of_nodup (hsub.nodup hnodup), List.length_map,
      List.length_dropLast]
    omega

theorem mem_foldl_insert (rows : List Row) (init : Finset String) (x : String) :
    x ∈ rows.foldl (fun next row => insert row.id next) init ↔
      x ∈ init ∨ x ∈ rows.map Row.id := by
  induction rows generalizing init with
  | nil => simp
  | cons r rs ih =>
    simp only [List.foldl_cons, ih, Finset.mem_insert, List.map_cons,
      List.mem_cons]
    tauto

theorem mem_foldl_kept (rows : List Row) (p init : Finset String) (x : String) :
    x ∈ rows.foldl (fun next row =>
        if row.id ∈ p then insert row.id next else next) init ↔
      x ∈ init ∨ (x ∈ rows.map Row.id ∧ x ∈ p) := by
  induction rows generalizing init with
  | nil => simp
  | cons r rs ih =>
    simp only [List.foldl_cons, List.map_cons, List.mem_cons]
    split_ifs with hr
    · simp only [ih, Finset.mem_insert]
      constructor
      · rintro ((rfl | hx) | hx)
        · exact Or.inr ⟨Or.inl rfl, hr⟩
        · exact Or.inl hx
        · tauto
      · rintro (hx | ⟨rfl | hx, hp⟩)
        · exact Or.inl (Or.inr hx)
        · exact Or.inl (Or.inl rfl)
        · exact Or.inr ⟨hx, hp⟩
    · simp only [ih]
      constructor
      · rintro (hx | hx)
        · exact Or.inl hx
        · tauto
      · rintro (hx | ⟨rfl | hx, hp⟩)
        · exact Or.inl hx
        · exact absurd hp hr
        · exact Or.inr ⟨hx, hp⟩

/-- The resynchronization in the source reduces to the set of all incoming
row ids: the second pass re-adds every incoming row, not only the new ones. -/
theorem resyncRows_eq (prev : Finset String) (rows : List Row) :
    resyncRows prev rows = (rows.map Row.id).toFinset := by
  ext x
  simp only [resyncRows, mem_foldl_insert, mem_foldl_kept, List.mem_toFinset,
    Finset.not_mem_empty, false_or]
  tauto

/-! ## Claims -/

/-- C1: for every header list with at least 2 headers (well-formed: distinct
ids) and every finite sequence of toggleColumn operations on header ids,
starting from the initial expanded-column set, the expanded-column set
contains at least 2 header ids — under both the permissive and the strict
toggle. -/
theorem C1_min_two_expanded_invariant (headers : List HeaderCell)
    (ops : List String) (hlen : 2 ≤ headers.length)
    (hnodup : (headers.map HeaderCell.id).Nodup)
    (hops : ∀ id ∈ ops, id ∈ headerIds headers) :
    2 ≤ (runToggles (initialState headers) ops ∩ headerIds headers).card ∧
    2 ≤ (runStrictToggles headers (initialState headers) ops ∩
          headerIds headers).card := by
  have hcard := initialState_card_ge headers hlen hnodup
  have hsub := initialState_subset headers
  constructor
  · rw [Finset.inter_eq_left.mpr (runToggles_subset ops hops hsub)]
    exact runToggles_card_ge ops hcard
  · rw [Finset.inter_eq_left.mpr (runStrictToggles_subset headers ops hops hsub)]
    exact runStrictToggles_card_ge headers ops hcard

/-- Witness for C1 at headers `[a, b, c]` and the operation sequence
`[c, a]`. -/
theorem C1_min_two_expanded_invariant_witness :
    2 ≤ (runToggles
          (initialState [⟨"a", "A"⟩, ⟨"b", "B"⟩, ⟨"c", "C"⟩])
          ["c", "a"] ∩
          headerIds [⟨"a", "A"⟩, ⟨"b", "B"⟩, ⟨"c", "C"⟩]).card ∧
    2 ≤ (runStrictToggles [⟨"a", "A"⟩, ⟨"b", "B"⟩, ⟨"c", "C"⟩]
          (initialState [⟨"a", "A"⟩, ⟨"b", "B"⟩, ⟨"c", "C"⟩])
          ["c", "a"] ∩
          headerIds [⟨"a", "A"⟩, ⟨"b", "B"⟩, ⟨"c", "C"⟩]).card :=
  C1_min_two_expanded_invariant [⟨"a", "A"⟩, ⟨"b", "B"⟩, ⟨"c", "C"⟩]
    ["c", "a"] (by decide) (by decide) (by decide)

/-- C2 (evaluation at the failing input): with a previous open-row set in
which row `r1` is closed, and a row list containing `r1` both before and
after the update, the resynchronization reopens `r1`: it returns `{r1}`,
not `∅` as the claim requires.  The source's second pass
(`rows.forEach((row) => next.add(row.id))`) adds every incoming row id,
contradicting its own comment which says only new rows are added. -/
theorem C2_resync_reopens_closed_row :
    resyncRows ∅ [Row.mk "r1"] = {"r1"} ∧
    ("r1" : String) ∈ resyncRows ∅ [Row.mk "r1"] := by
  constructor
  · rw [resyncRows_eq]
    rfl
  · rw [resyncRows_eq]
    decide

/-- C3: permissive toggle: an expanded id with count above 2 is removed,
an expanded id at count exactly 2 is a silent no-op, a collapsed id is
always added. -/
theorem C3_permissive_toggle_cases (prev : Finset String) (id : String) :
    (id ∈ prev → 2 < prev.card → toggle prev id = prev.erase id) ∧
    (id ∈ prev → prev.card = 2 → toggle prev id = prev) ∧
    (id ∉ prev → toggle prev id = insert id prev) := by
  refine ⟨fun hmem hcard => ?_, fun hmem hcard => ?_, fun hmem => ?_⟩
  · simp only [toggle, MIN_EXPANDED]
    rw [if_neg (fun hc => by omega), if_pos hmem]
  · simp only [toggle, MIN_EXPANDED]
    rw [if_pos ⟨hmem, by omega⟩]
  · simp only [toggle, MIN_EXPANDED]
    rw [if_neg (fun hc => hmem hc.1), if_neg hmem]

/-- Witness for C3: all three cases at concrete states. -/
theorem C3_permissive_toggle_cases_witness :
    toggle (insert "a" (insert "b" {"c"})) "a" =
      (insert "a" (insert "b" {"c"}) : Finset String).erase "a" ∧
    toggle (insert "a" {"b"}) "a" = insert "a" {"b"} ∧
    toggle (insert "a" {"b"}) "c" = insert "c" (insert "a" {"b"}) :=
  ⟨(C3_permissive_toggle_cases (insert "a" (insert "b" {"c"})) "a").1
      (by decide) (by decide),
   (C3_permissive_toggle_cases (insert "a" {"b"}) "a").2.1
      (by decide) (by decide),
   (C3_permissive_toggle_cases (insert "a" {"b"}) "c").2.2 (by decide)⟩

/-- C6: the row resynchronization is idempotent: resynchronizing twice with
the same row list equals resynchronizing once. -/
theorem C6_resync_idempotent (prev : Finset String) (rows : List Row) :
    resyncRows (resyncRows prev rows) rows = resyncRows prev rows := by
  rw [resyncRows_eq, resyncRows_eq]

/-- C7: the collapsed display width of a header title is
`max(len(title) + 4, 8)`; a 1-character title yields 8 and the title
"Status" yields 10. -/
theorem C7_collapsed_width :
    (∀ title : String, getCollapsedWidthCh title = max (title.length + 4) 8) ∧
    getCollapsedWidthCh "S" = 8 ∧
    getCollapsedWidthCh "Status" = 10 :=
  ⟨fun _ => rfl, by decide, by decide⟩

/-- C4 fails as stated: with the 4-header list `[a, b, c, d]` (distinct ids,
so at least 3 headers) and the single valid operation `toggleColumn(a)`,
the strict toggle deletes `a` while `d` is already collapsed, reaching a
state with 2 collapsed columns: `|headers| - |expanded| = 4 - 2 = 2 > 1`. -/
theorem C4_counterexample :
    3 ≤ ([⟨"a", "A"⟩, ⟨"b", "B"⟩, ⟨"c", "C"⟩, ⟨"d", "D"⟩] :
          List HeaderCell).length ∧
    (([⟨"a", "A"⟩, ⟨"b", "B"⟩, ⟨"c", "C"⟩, ⟨"d", "D"⟩] :
        List HeaderCell).map HeaderCell.id).Nodup ∧
    "a" ∈ headerIds [⟨"a", "A"⟩, ⟨"b", "B"⟩, ⟨"c", "C"⟩, ⟨"d", "D"⟩] ∧
    ¬ (([⟨"a", "A"⟩, ⟨"b", "B"⟩, ⟨"c", "C"⟩, ⟨"d", "D"⟩] :
          List HeaderCell).length -
        (runStrictToggles [⟨"a", "A"⟩, ⟨"b", "B"⟩, ⟨"c", "C"⟩, ⟨"d", "D"⟩]
          (initialState [⟨"a", "A"⟩, ⟨"b", "B"⟩, ⟨"c", "C"⟩, ⟨"d", "D"⟩])
          ["a"]).card ≤ 1) := by
  decide

/-- C4 amended: under the strict toggle, for every header list with exactly
3 distinct-id headers and every finite sequence of toggle operations from
the initial expanded-column set, at most one column is collapsed:
`|headers| - |expanded| ≤ 1`. -/
theorem C4_strict_single_collapse_three_headers (headers : List HeaderCell)
    (ops : List String) (hlen : headers.length = 3)
    (hnodup : (headers.map HeaderCell.id).Nodup) :
    headers.length -
      (runStrictToggles headers (initialState headers) ops).card ≤ 1 := by
  have hcard := initialState_card_ge headers (by omega) hnodup
  have h2 := runStrictToggles_card_ge headers ops hcard
  omega

/-- Witness for the amended C4 at headers `[a, b, c]` and operations
`[a, b]`. -/
theorem C4_strict_single_collapse_three_headers_witness :
    ([⟨"a", "A"⟩, ⟨"b", "B"⟩, ⟨"c", "C"⟩] : List HeaderCell).length -
      (runStrictToggles [⟨"a", "A"⟩, ⟨"b", "B"⟩, ⟨"c", "C"⟩]
        (initialState [⟨"a", "A"⟩, ⟨"b", "B"⟩, ⟨"c", "C"⟩])
        ["a", "b"]).card ≤ 1 :=
  C4_strict_single_collapse_three_headers
    [⟨"a", "A"⟩, ⟨"b", "B"⟩, ⟨"c", "C"⟩] ["a", "b"] (by decide) (by decide)

/-- C5 fails as stated: with headers `[a, b, c]`, expanded `{a, b}` and
collapsed `{c}`, the strict toggle on the collapsed column `c` yields
`{a, b, c}` — all three expanded, `b` stays expanded — not the claimed
swap result `{a, c}`. -/
theorem C5_counterexample :
    toggleStrict [⟨"a", "A"⟩, ⟨"b", "B"⟩, ⟨"c", "C"⟩]
        (insert "a" {"b"}) "c" = insert "c" (insert "a" {"b"}) ∧
    toggleStrict [⟨"a", "A"⟩, ⟨"b", "B"⟩, ⟨"c", "C"⟩]
        (insert "a" {"b"}) "c" ≠ insert "a" {"c"} ∧
    ("b" : String) ∈ toggleStrict [⟨"a", "A"⟩, ⟨"b", "B"⟩, ⟨"c", "C"⟩]
        (insert "a" {"b"}) "c" := by
  decide

/-- C5 amended: under the strict policy, toggling a collapsed column always
expands it (no swap happens on that side): with headers `[a, b, c]` and
expanded `{a, b}`, `toggleColumn(c)` yields `{a, b, c}`.  The swap occurs
instead when toggling an expanded column at the 2-expanded floor with
exactly one column collapsed: `toggleColumn(a)` from `{a, b}` yields
`{b, c}` with `a` collapsed. -/
theorem C5_strict_collapsed_toggle_expands (headers : List HeaderCell)
    (prev : Finset String) (id : String) (hid : id ∉ prev) :
    toggleStrict headers prev id = insert id prev ∧
    toggleStrict [⟨"a", "A"⟩, ⟨"b", "B"⟩, ⟨"c", "C"⟩]
      (insert "a" {"b"}) "c" = insert "c" (insert "a" {"b"}) ∧
    toggleStrict [⟨"a", "A"⟩, ⟨"b", "B"⟩, ⟨"c", "C"⟩]
      (insert "a" {"b"}) "a" = insert "c" {"b"} := by
  refine ⟨?_, by decide, by decide⟩
  simp only [toggleStrict, MIN_EXPANDED]
  rw [if_neg hid]

/-- Witness for the amended C5 at expanded `{a, b}` and clicked id `c`. -/
theorem C5_strict_collapsed_toggle_expands_witness :
    toggleStrict [⟨"a", "A"⟩, ⟨"b", "B"⟩, ⟨"c", "C"⟩]
      (insert "a" {"b"}) "c" = insert "c" (insert "a" {"b"}) ∧
    toggleStrict [⟨"a", "A"⟩, ⟨"b", "B"⟩, ⟨"c", "C"⟩]
      (insert "a" {"b"}) "c" = insert "c" (insert "a" {"b"}) ∧
    toggleStrict [⟨"a", "A"⟩, ⟨"b", "B"⟩, ⟨"c", "C"⟩]
      (insert "a" {"b"}) "a" = insert "c" {"b"} :=
  C5_strict_collapsed_toggle_expands [⟨"a", "A"⟩, ⟨"b", "B"⟩, ⟨"c", "C"⟩]
    (insert "a" {"b"}) "c" (by decide)

/-- C8: the equal-split header template has one token per header, in header
order; every expanded column gets the same flexible share `1fr` and every
collapsed column gets its fixed collapsed width from the title-length
formula. -/
theorem C8_equal_split_header_template (headers : List HeaderCell)
    (expanded : Finset String) :
    (headerTemplate headers expanded).length = headers.length ∧
    ∀ i (h1 : i < headers.length)
      (h2 : i < (headerTemplate headers expanded).length),
      (headers[i].id ∈ expanded →
        (headerTemplate headers expanded)[i] = SizeToken.fr 1) ∧
      (headers[i].id ∉ expanded →
        (headerTemplate headers expanded)[i] =
          SizeToken.ch (getCollapsedWidthCh headers[i].title)) := by
  refine ⟨by simp [headerTemplate], fun i h1 h2 => ⟨fun hmem => ?_, fun hmem => ?_⟩⟩
  · simp [headerTemplate, hmem]
  · simp [headerTemplate, hmem]

/-- Witness for C8 at headers `[a, b]` with only `a` expanded. -/
theorem C8_equal_split_header_template_witness :
    (headerTemplate [⟨"a", "A"⟩, ⟨"b", "Notes"⟩] {"a"}).length =
      ([⟨"a", "A"⟩, ⟨"b", "Notes"⟩] : List HeaderCell).length ∧
    ((([⟨"a", "A"⟩, ⟨"b", "Notes"⟩] : List HeaderCell)[0].id ∈
        ({"a"} : Finset String) →
      (headerTemplate [⟨"a", "A"⟩, ⟨"b", "Notes"⟩] {"a"})[0] =
        SizeToken.fr 1) ∧
     (([⟨"a", "A"⟩, ⟨"b", "Notes"⟩] : List HeaderCell)[0].id ∉
        ({"a"} : Finset String) →
      (headerTemplate [⟨"a", "A"⟩, ⟨"b", "Notes"⟩] {"a"})[0] =
        SizeToken.ch (getCollapsedWidthCh
          ([⟨"a", "A"⟩, ⟨"b", "Notes"⟩] : List HeaderCell)[0].title))) :=
  ⟨(C8_equal_split_header_template [⟨"a", "A"⟩, ⟨"b", "Notes"⟩] {"a"}).1,
   (C8_equal_split_header_template [⟨"a", "A"⟩, ⟨"b", "Notes"⟩] {"a"}).2
     0 (by decide) (by decide)⟩

/-- C9: the equal-split value template has one token per header, in header
order, with the same length as the header list and the header template;
every collapsed column's token is the zero-width `0px` and every expanded
column gets the same share `1fr`. -/
theorem C9_value_template_shape (headers : List HeaderCell)
    (expanded : Finset String) :
    (valueTemplate headers expanded).length = headers.length ∧
    (headerTemplate headers expanded).length =
      (valueTemplate headers expanded).length ∧
    ∀ i (h1 : i < headers.length)
      (h2 : i < (valueTemplate headers expanded).length),
      (headers[i].id ∉ expanded →
        (valueTemplate headers expanded)[i] = SizeToken.px 0) ∧
      (headers[i].id ∈ expanded →
        (valueTemplate headers expanded)[i] = SizeToken.fr 1) := by
  refine ⟨by simp [valueTemplate], by simp [headerTemplate, valueTemplate],
    fun i h1 h2 => ⟨fun hmem => ?_, fun hmem => ?_⟩⟩
  · simp [valueTemplate, hmem]
  · simp [valueTemplate, hmem]

/-- Witness for C9 at headers `[a, b]` with only `a` expanded. -/
theorem C9_value_template_shape_witness :
    (valueTemplate [⟨"a", "A"⟩, ⟨"b", "B"⟩] {"a"}).length =
      ([⟨"a", "A"⟩, ⟨"b", "B"⟩] : List HeaderCell).length ∧
    ((([⟨"a", "A"⟩, ⟨"b", "B"⟩] : List HeaderCell)[1].id ∉
        ({"a"} : Finset String) →
      (valueTemplate [⟨"a", "A"⟩, ⟨"b", "B"⟩] {"a"})[1] = SizeToken.px 0) ∧
     (([⟨"a", "A"⟩, ⟨"b", "B"⟩] : List HeaderCell)[1].id ∈
        ({"a"} : Finset String) →
      (valueTemplate [⟨"a", "A"⟩, ⟨"b", "B"⟩] {"a"})[1] = SizeToken.fr 1)) :=
  ⟨(C9_value_template_shape [⟨"a", "A"⟩, ⟨"b", "B"⟩] {"a"}).1,
   (C9_value_template_shape [⟨"a", "A"⟩, ⟨"b", "B"⟩] {"a"}).2.2
     1 (by decide) (by decide)⟩

/-- C10: toggling an id that is neither expanded nor a header id is not a
no-op: both toggle variants insert it, so the expanded-column set stops
being a subset of the header ids. -/
theorem C10_unknown_id_added (headers : List HeaderCell) (prev : Finset String)
    (id : String) (hid : id ∉ prev) (hhdr : id ∉ headerIds headers) :
    toggle prev id = insert id prev ∧
    toggleStrict headers prev id = insert id prev ∧
    toggle prev id ≠ prev ∧
    ¬ toggle prev id ⊆ headerIds headers ∧
    ¬ toggleStrict headers prev id ⊆ headerIds headers := by
  have h1 : toggle prev id = insert id prev := by
    simp only [toggle, MIN_EXPANDED]
    rw [if_neg (fun hc => hid hc.1), if_neg hid]
  have h2 : toggleStrict headers prev id = insert id prev := by
    simp only [toggleStrict, MIN_EXPANDED]
    rw [if_neg hid]
  refine ⟨h1, h2, ?_, ?_, ?_⟩
  · rw [h1]
    intro he
    exact hid (he ▸ Finset.mem_insert_self id prev)
  · rw [h1]
    intro hsub
    exact hhdr (hsub (Finset.mem_insert_self id prev))
  · rw [h2]
    intro hsub
    exact hhdr (hsub (Finset.mem_insert_self id prev))

/-- Witness for C10 at headers `[a, b]`, expanded `{a, b}` and the unknown
id `z`. -/
theorem C10_unknown_id_added_witness :
    toggle (insert "a" {"b"}) "z" = insert "z" (insert "a" {"b"}) ∧
    toggleStrict [⟨"a", "A"⟩, ⟨"b", "B"⟩] (insert "a" {"b"}) "z" =
      insert "z" (insert "a" {"b"}) ∧
    toggle (insert "a" {"b"}) "z" ≠ insert "a" {"b"} ∧
    ¬ toggle (insert "a" {"b"}) "z" ⊆ headerIds [⟨"a", "A"⟩, ⟨"b", "B"⟩] ∧
    ¬ toggleStrict [⟨"a", "A"⟩, ⟨"b", "B"⟩] (insert "a" {"b"}) "z" ⊆
        headerIds [⟨"a", "A"⟩, ⟨"b", "B"⟩] :=
  C10_unknown_id_added [⟨"a", "A"⟩, ⟨"b", "B"⟩] (insert "a" {"b"}) "z"
    (by decide) (by decide)

end CollapsibleGrid

namespace CollapsibleGrid

example : toggle (insert "a" {"b"}) "a" = insert "a" {"b"} := by decide

example : toggle (insert "a" (insert "b" {"c"})) "a" = insert "b" {"c"} := by decide

example :
    toggleStrict [⟨"a", "A"⟩, ⟨"b", "B"⟩, ⟨"c", "C"⟩] (insert "a" {"b"}) "a" =
      insert "b" {"c"} := by decide

example : resyncRows ∅ [⟨"r1"⟩] = {"r1"} := by decide

example :
    initialState [⟨"a", "A"⟩, ⟨"b", "B"⟩, ⟨"c", "C"⟩, ⟨"d", "D"⟩] =
      insert "a" (insert "b" {"c"}) := by decide

end CollapsibleGrid
